import Mathlib

/-!
Verification of the signal scheduling and delivery engine of `pocket_bot`
(`src/pocket_bot/bot.py`, with storage queries from `src/pocket_bot/storage.py`).

The engine is embedded shallowly:

* Python strings are `List Char`; Python `int(...)` parsing is modelled by
  `pyInt` (strip surrounding whitespace, optional sign, digits with single
  interior underscore separators).
* `datetime` instants within the current day are modelled as rational
  numbers of seconds since local midnight in the fixed reference time zone;
  `timedelta` arithmetic becomes rational arithmetic.
* Randomness is explicit: `random.randint(lo, hi)` becomes `randint lo hi r`
  for a seed `r` in `[0, 1)`, and each `random.random()` draw of the plan
  builder is read from a seed stream `ℕ → ℚ`.
* The job queue is modelled by the list of registered (warning, delivery)
  timer pairs; `job.schedule_removal()` is modelled by collecting the
  removed handles.
* Wall clock reads during the scheduling loop (`_auto_signal_today()` per
  iteration) are a function `nowAt : ℕ → ℚ` of the iteration index.
-/

/-! ## Python string primitives -/

/-- Whitespace characters recognised by Python's `str.strip` (ASCII subset). -/
def isPySpace (c : Char) : Bool :=
  c = ' ' || c = '\t' || c = '\n' || c = '\r' || c = '\x0b' || c = '\x0c'

/-- Python `str.strip()`: drop leading and trailing whitespace. -/
def pyStrip (s : List Char) : List Char :=
  ((s.dropWhile isPySpace).reverse.dropWhile isPySpace).reverse

/-- Decimal digit test. -/
def isDigitChar (c : Char) : Bool :=
  '0' ≤ c && c ≤ '9'

/-- Numeric value of a digit character. -/
def digitVal (c : Char) : ℕ :=
  c.toNat - 48

/-- Accumulate the value of a digit sequence that may contain single interior
underscores (Python's integer-literal grammar: an underscore must be followed
by a digit). The first character is checked by `pyNatOfDigits`. -/
def pyDigitsAux : List Char → ℕ → Option ℕ
  | [], acc => some acc
  | c :: rest, acc =>
    if isDigitChar c then pyDigitsAux rest (acc * 10 + digitVal c)
    else if c = '_' then
      match rest with
      | [] => none
      | d :: _ => if isDigitChar d then pyDigitsAux rest acc else none
    else none

/-- Parse an unsigned digit sequence as Python `int` does (nonempty, starts
with a digit, single underscores allowed between digits). -/
def pyNatOfDigits : List Char → Option ℕ
  | [] => none
  | c :: rest => if isDigitChar c then pyDigitsAux (c :: rest) 0 else none

/-- Python `int(s)` on a decimal string: strip whitespace, optional sign,
then digits. Returns `none` where Python raises `ValueError`. -/
def pyInt (s : List Char) : Option ℤ :=
  match pyStrip s with
  | '+' :: rest => (pyNatOfDigits rest).map (fun n => (n : ℤ))
  | '-' :: rest => (pyNatOfDigits rest).map (fun n => -(n : ℤ))
  | t => (pyNatOfDigits t).map (fun n => (n : ℤ))

/-- Python `s.split(sep, maxsplit=1)` restricted to the case used by the bot:
returns the parts before and after the first occurrence of `sep`, or `none`
when `sep` does not occur (which also covers the empty string). -/
def splitOnFirst (sep : Char) : List Char → Option (List Char × List Char)
  | [] => none
  | c :: rest =>
    if c = sep then some ([], rest)
    else
      match splitOnFirst sep rest with
      | some (a, b) => some (c :: a, b)
      | none => none

/-! ## Configuration parsing (`_parse_signal_range_bounds`,
`_parse_working_hours_window`, `_resolve_auto_signal_window`) -/

/-- `_parse_signal_range_bounds`: split the stored string on the first `-`,
parse both sides as integers, reject negative bounds and inverted ranges. -/
def parse_signal_range_bounds (s : List Char) : Option (ℤ × ℤ) :=
  match splitOnFirst '-' s with
  | none => none
  | some (startRaw, endRaw) =>
    match pyInt (pyStrip startRaw), pyInt (pyStrip endRaw) with
    | some lower, some upper =>
      if lower < 0 ∨ upper < 0 ∨ upper < lower then none else some (lower, upper)
    | _, _ => none

/-- One side of the working-hours window: strip, split on the first `:`,
parse hour and minute as integers. -/
def parse_time_of_day (raw : List Char) : Option (ℤ × ℤ) :=
  match splitOnFirst ':' (pyStrip raw) with
  | none => none
  | some (a, b) =>
    match pyInt a, pyInt b with
    | some h, some m => some (h, m)
    | _, _ => none

/-- `datetime.time(hour=h, minute=m)`: valid only for `0 ≤ h ≤ 23`,
`0 ≤ m ≤ 59` (otherwise Python raises `ValueError`, caught by the parser). -/
def mk_time_of_day (h m : ℤ) : Option (ℕ × ℕ) :=
  if 0 ≤ h ∧ h ≤ 23 ∧ 0 ≤ m ∧ m ≤ 59 then some (h.toNat, m.toNat) else none

/-- `_parse_working_hours_window`: split on the first `-`, parse both sides
as times of day. -/
def parse_working_hours_window (s : List Char) :
    Option ((ℕ × ℕ) × (ℕ × ℕ)) :=
  match splitOnFirst '-' s with
  | none => none
  | some (startRaw, endRaw) =>
    match parse_time_of_day startRaw, parse_time_of_day endRaw with
    | some (sh, sm), some (eh, em) =>
      match mk_time_of_day sh sm, mk_time_of_day eh em with
      | some st, some et => some (st, et)
      | _, _ => none
    | _, _ => none

/-- `DEFAULT_WORKING_HOURS = "09:00-12:00"`. -/
def DEFAULT_WORKING_HOURS : List Char := "09:00-12:00".data

/-- `_resolve_auto_signal_window`: the stored window when parsable, otherwise
the default window string, otherwise the hard-coded 09:00/12:00 constants
(`AUTO_SIGNAL_START_TIME` / `AUTO_SIGNAL_END_TIME`). -/
def resolve_auto_signal_window (hoursStr : List Char) : (ℕ × ℕ) × (ℕ × ℕ) :=
  match parse_working_hours_window hoursStr with
  | some w => w
  | none =>
    match parse_working_hours_window DEFAULT_WORKING_HOURS with
    | some w => w
    | none => ((9, 0), (12, 0))

/-- Seconds since local midnight of a time of day
(`datetime.combine(today, t)`, relative to local midnight of `today`). -/
def timeToSeconds (t : ℕ × ℕ) : ℚ :=
  ((t.1 * 3600 + t.2 * 60 : ℕ) : ℚ)

/-! ## Daily plan builder (`_setup_auto_signals_for_today`) -/

/-- `AUTO_SIGNAL_WARNING_SECONDS = 10`. -/
def AUTO_SIGNAL_WARNING_SECONDS : ℕ := 10

/-- `random.randint(lo, hi)` driven by a uniform seed `r ∈ [0, 1)`:
`lo + ⌊r * (hi - lo + 1)⌋`. -/
def randint (lo hi : ℤ) (r : ℚ) : ℤ :=
  lo + Rat.floor (r * ((hi - lo + 1 : ℤ) : ℚ))

/-- The day's schedule state (`bot_data["auto_signal_state"]`):
`{"date": ..., "target": ..., "sent": ...}`. Dates are abstracted to an
integer day number. -/
structure AutoSignalState where
  date : ℤ
  target : ℤ
  sent : ℤ
deriving DecidableEq

/-- A registered warning/delivery timer pair, recorded by its two
`run_once` delays (seconds from the wall clock read of its loop iteration)
and the planned delivery instant. -/
structure ScheduledPair where
  warningDelay : ℚ
  deliveryDelay : ℚ
  deliveryTime : ℚ
deriving DecidableEq

/-- The delivery-instant draw loop: for each of `target` iterations, draw
`offset = random.random() * duration`, set `candidate = earliest + offset`,
and clamp `candidate` to `latest - 1` second when it reaches `latest`. -/
def drawTimes (oseed : ℕ → ℚ) (target : ℕ) (earliest latest duration : ℚ) :
    List ℚ :=
  (List.range target).map (fun i =>
    let offset := oseed i * duration
    let candidate := earliest + offset
    if latest ≤ candidate then latest - 1 else candidate)

/-- The scheduling loop over the sorted delivery instants: re-read the wall
clock (`nowAt i`), compute the warning delay (clamped at zero), skip
instants whose delivery delay is not positive, and register the pair. -/
def scheduleJobs (nowAt : ℕ → ℚ) : ℕ → List ℚ → List ScheduledPair
  | _, [] => []
  | i, t :: rest =>
    let current_now := nowAt i
    let warning_time := t - (AUTO_SIGNAL_WARNING_SECONDS : ℚ)
    let wd := warning_time - current_now
    let warning_delay := if wd < 0 then 0 else wd
    let delivery_delay := t - current_now
    if delivery_delay ≤ 0 then scheduleJobs nowAt (i + 1) rest
    else ⟨warning_delay, delivery_delay, t⟩ :: scheduleJobs nowAt (i + 1) rest

/-- `_setup_auto_signals_for_today`, as a function of the stored settings
(`toggle` = global signals flag, `rangeStr` = signals range string,
`hoursStr` = working hours string), the current day and wall clock, the
random seeds and the job-queue availability. Returns the recorded
`AutoSignalState` and the list of registered timer pairs. -/
def setup_auto_signals_for_today (toggle : Bool) (rangeStr hoursStr : List Char)
    (today : ℤ) (now : ℚ) (tseed : ℚ) (oseed : ℕ → ℚ) (nowAt : ℕ → ℚ)
    (jobQueueAvailable : Bool) : AutoSignalState × List ScheduledPair :=
  if toggle = false then (⟨today, 0, 0⟩, [])
  else
    match parse_signal_range_bounds rangeStr with
    | none => (⟨today, 0, 0⟩, [])
    | some (lower, upper) =>
      let target := randint lower upper tseed
      let window := resolve_auto_signal_window hoursStr
      let start_dt := timeToSeconds window.1
      let end_dt := timeToSeconds window.2
      if end_dt ≤ start_dt then (⟨today, 0, 0⟩, [])
      else
        let st : AutoSignalState := ⟨today, target, 0⟩
        if target ≤ 0 then (st, [])
        else
          let earliest := max start_dt (now + ((AUTO_SIGNAL_WARNING_SECONDS : ℚ) + 1))
          let latest := end_dt
          if latest ≤ earliest then (st, [])
          else
            let duration := latest - earliest
            if duration ≤ (AUTO_SIGNAL_WARNING_SECONDS : ℚ) then (st, [])
            else
              let times :=
                List.insertionSort (· ≤ ·)
                  (drawTimes oseed target.toNat earliest latest duration)
              if jobQueueAvailable = false then (st, [])
              else (st, scheduleJobs nowAt 0 times)

/-- `_auto_signal_remaining`: `target - sent`, floored at zero. -/
def auto_signal_remaining (st : AutoSignalState) : ℤ :=
  let remaining := st.target - st.sent
  if remaining > 0 then remaining else 0

example : parse_signal_range_bounds "5-10".data = some (5, 10) := by decide

example : parse_signal_range_bounds "6 - 10".data = some (6, 10) := by decide

example : parse_signal_range_bounds "010".data = none := by decide

example : parse_signal_range_bounds "7-3".data = none := by decide

example : parse_working_hours_window "09:00-12:00".data = some ((9, 0), (12, 0)) := by
  decide

example : parse_working_hours_window "25:00-12:00".data = none := by decide

example : resolve_auto_signal_window "garbage".data = ((9, 0), (12, 0)) := by decide

example : randint 5 10 0 = 5 := by with_unfolding_all decide

example : randint 5 10 (5 / 6 : ℚ) = 10 := by with_unfolding_all decide

example : randint 0 0 (1 / 2 : ℚ) = 0 := by with_unfolding_all decide

/-! ## Caption truncation (`_prepare_caption_text`) -/

/-- `TELEGRAM_CAPTION_LIMIT = 1024`. -/
def TELEGRAM_CAPTION_LIMIT : ℕ := 1024

/-- Python `str.rstrip()`. -/
def pyRstrip (s : List Char) : List Char :=
  (s.reverse.dropWhile isPySpace).reverse

/-- The ellipsis marker appended on truncation (one character). -/
def ellipsisMarker : List Char := ['…']

/-- `_prepare_caption_text`: return the text unchanged when it fits in
`limit`; otherwise slice to `limit - 1` characters, strip trailing
whitespace, and append the ellipsis marker. -/
def prepare_caption_text (text : List Char) (limit : ℕ := TELEGRAM_CAPTION_LIMIT) :
    List Char × Bool :=
  if text.length ≤ limit then (text, false)
  else
    let slice_limit := limit - ellipsisMarker.length
    let truncated := pyRstrip (text.take slice_limit)
    if truncated = [] then (ellipsisMarker, true)
    else (truncated ++ ellipsisMarker, true)

/-! ## Per-recipient broadcast (`_broadcast_manual_signal`) -/

/-- `_broadcast_manual_signal`: send to each recipient in turn; the send
collaborator either succeeds (`send u = true`) or raises a recoverable
per-recipient error (`send u = false`), which is caught: the loop counts
successes and collects the failed IDs, never aborting. -/
def broadcast_manual_signal (recipients : List ℤ) (send : ℤ → Bool) :
    ℕ × List ℤ :=
  recipients.foldl
    (fun acc user_id =>
      if send user_id then (acc.1 + 1, acc.2) else (acc.1, acc.2 ++ [user_id]))
    (0, [])

/-! ## Delivery pipeline (`_execute_auto_signal`) -/

/-- `_execute_auto_signal`, abstracted over the already-resolved recipient
list and the per-recipient send outcome. Returns the `(delivered, failed)`
result, the updated day state, and the list of recipients that were
contacted. When the global toggle is off the call increments `sent` and
returns a no-op result without contacting anyone. -/
def execute_auto_signal (toggle : Bool) (recipients : List ℤ) (send : ℤ → Bool)
    (st : AutoSignalState) : (ℕ × List ℤ) × AutoSignalState × List ℤ :=
  if toggle = false then ((0, []), ⟨st.date, st.target, st.sent + 1⟩, [])
  else
    let res := if recipients = [] then (0, []) else broadcast_manual_signal recipients send
    (res, ⟨st.date, st.target, st.sent + 1⟩, recipients)

/-! ## Job lifecycle manager (`_register_auto_signal_job`,
`_cancel_one_scheduled_auto_job`) -/

/-- One entry of `bot_data["auto_signal_jobs"]`: a linked pair of timer
handles, each either a live job (identified by an abstract handle) or
`None` after `unregister` consumed that side. -/
structure JobEntry where
  warning : Option ℕ
  delivery : Option ℕ
deriving DecidableEq

/-- The handles held by an entry, warning first (Python `entry.values()`
iterates insertion order). -/
def entryHandles (e : JobEntry) : List ℕ :=
  e.warning.toList ++ e.delivery.toList

/-- An entry is still pending when at least one of its timers is live. -/
def entryPending (e : JobEntry) : Bool :=
  e.warning.isSome || e.delivery.isSome

/-- The bot-data slice touched by `_cancel_one_scheduled_auto_job`: the
registered job entries (in registration order) and the day state. -/
structure BotJobData where
  jobs : List JobEntry
  state : AutoSignalState
deriving DecidableEq

/-- The `while entries:` loop of `_cancel_one_scheduled_auto_job`, acting on
the reversed entry list (Python pops from the end): drop entries until one
with a live handle is found, cancel its handles and stop. Returns whether
anything was cancelled, the remaining (still reversed) entries, and the
handles passed to `schedule_removal`. -/
def cancelOneAux : List JobEntry → Bool × List JobEntry × List ℕ
  | [] => (false, [], [])
  | e :: rest =>
    if entryPending e then (true, rest, entryHandles e)
    else cancelOneAux rest

/-- `_cancel_one_scheduled_auto_job`. -/
def cancel_one_scheduled_auto_job (bd : BotJobData) : Bool × BotJobData × List ℕ :=
  let r := cancelOneAux bd.jobs.reverse
  (r.1, ⟨r.2.1.reverse, bd.state⟩, r.2.2)

/-! ## Recipient resolution (`_gather_signal_recipients`,
`Storage.list_signal_recipient_ids`, `_get_personal_signals_setting`) -/

/-- The slice of persisted storage the recipient resolver reads:
the global toggle, the user IDs whose application status is `approved`,
the user IDs whose conversation stage is `completed`, and the
`personal_signals` table (`none` = no row for that user). The process-local
preference cache always agrees with the table (both writers update both),
so it is collapsed into `personal`. -/
structure StorageState where
  globalSignals : Bool
  approved : Finset ℤ
  completed : Finset ℤ
  personal : ℤ → Option Bool

/-- A user's effective preference: the stored value, defaulting to enabled
(`DEFAULT_PERSONAL_SIGNALS = True`) when unset (`COALESCE(ps.enabled, 1)`). -/
def prefOrDefault (s : StorageState) (u : ℤ) : Bool :=
  (s.personal u).getD true

/-- `Storage.list_signal_recipient_ids`: users approved or completed, kept
when `COALESCE(ps.enabled, 1) = 1`. -/
def list_signal_recipient_ids (s : StorageState) : Finset ℤ :=
  (s.approved ∪ s.completed).filter (fun u => prefOrDefault s u = true)

/-- `Storage.set_personal_signals`. -/
def setPersonal (s : StorageState) (u : ℤ) (v : Bool) : StorageState :=
  { s with personal := fun x => if x = u then some v else s.personal x }

/-- `_get_personal_signals_setting`: read the stored preference; when unset,
lazily persist the default (`True`) and return it. -/
def get_personal_signals_setting (s : StorageState) (u : ℤ) : Bool × StorageState :=
  match s.personal u with
  | some v => (v, s)
  | none => (true, setPersonal s u true)

/-- The body of the `for admin_id in ADMIN_IDS:` loop of
`_gather_signal_recipients`: read the admin's preference (lazily persisting
the default) and add the admin to the recipient set when it is enabled. -/
def adminStep (acc : Finset ℤ × StorageState) (a : ℤ) :
    Finset ℤ × StorageState :=
  let r := get_personal_signals_setting acc.2 a
  (if r.1 then insert a acc.1 else acc.1, r.2)

/-- `_gather_signal_recipients`, as a function of the admin ID set and the
storage state. Python iterates its sets in unspecified order; the loops'
effects and results are order-independent, so iteration is modelled in
ascending order. Returns the recipient list and the updated storage. -/
def gather_signal_recipients (adminIds : Finset ℤ) (s : StorageState) :
    List ℤ × StorageState :=
  if s.globalSignals = false then ([], s)
  else
    let recipients := (list_signal_recipient_ids s).filter (fun u => u ∉ adminIds)
    let s1 := (recipients.sort (· ≤ ·)).foldl
      (fun st u => (get_personal_signals_setting st u).2) s
    let final := (adminIds.sort (· ≤ ·)).foldl adminStep (recipients, s1)
    (final.1.sort (· ≤ ·), final.2)

/-! ## Helper lemmas -/

/-- Characterization of the broadcast fold. -/
theorem broadcast_foldl_eq (send : ℤ → Bool) (recipients : List ℤ)
    (d : ℕ) (f : List ℤ) :
    recipients.foldl
      (fun acc user_id =>
        if send user_id then (acc.1 + 1, acc.2) else (acc.1, acc.2 ++ [user_id]))
      (d, f)
    = (d + (recipients.filter send).length,
       f ++ recipients.filter (fun u => !(send u))) := by
  induction recipients generalizing d f with
  | nil => simp
  | cons x xs ih =>
    by_cases h : send x
    · simp [h, ih, List.filter_cons, Nat.add_assoc, Nat.add_comm 1]
    · simp [h, ih, List.filter_cons]

/-- The cancel loop, characterized through the pending-entry sublist of its
argument. -/
theorem cancelOneAux_spec (l : List JobEntry) :
    (cancelOneAux l).1 = !(l.filter entryPending).isEmpty ∧
    (cancelOneAux l).2.1.filter entryPending = (l.filter entryPending).tail ∧
    (cancelOneAux l).2.2
      = ((l.filter entryPending).head?.map entryHandles).getD [] := by
  induction l with
  | nil => simp [cancelOneAux]
  | cons e rest ih =>
    by_cases h : entryPending e
    · simp [cancelOneAux, h, List.filter_cons]
    · simp [cancelOneAux, h, List.filter_cons, ih]

/-- Reversing, dropping the head, and reversing again drops the last
element. -/
theorem reverse_tail_reverse {α : Type} (l : List α) :
    (l.reverse.tail).reverse = l.dropLast := by
  induction l using List.reverseRecOn with
  | nil => simp
  | append_singleton xs x _ => simp


/-! ## C10 -/

/-- C10: the admin status surface's remaining count is always non-negative:
`_auto_signal_remaining` returns `max(0, target - sent)` for every state. -/
theorem auto_signal_remaining_eq_max (st : AutoSignalState) :
    auto_signal_remaining st = max 0 (st.target - st.sent) ∧
    0 ≤ auto_signal_remaining st := by
  unfold auto_signal_remaining
  constructor
  · dsimp only
    split
    · next h => exact (max_eq_right (le_of_lt h)).symm
    · next h => exact (max_eq_left (not_lt.mp h)).symm
  · dsimp only
    split
    · next h => exact le_of_lt h
    · exact le_refl 0

/-! ## C6 -/

/-- C6: `_broadcast_manual_signal` processes every recipient exactly once:
for every recipient list and every pattern of per-recipient send failures
(the send collaborator is modelled as a total outcome function, the
per-recipient `TelegramError` being caught inside the loop, so the call
never raises), a failure does not abort the remaining sends, the failed
list is exactly the recipients whose send failed in order, and
`delivered + len(failed) = len(recipients)`. -/
theorem broadcast_manual_signal_partial_failure (recipients : List ℤ)
    (send : ℤ → Bool) :
    (broadcast_manual_signal recipients send).1
      + (broadcast_manual_signal recipients send).2.length
      = recipients.length ∧
    (broadcast_manual_signal recipients send).2
      = recipients.filter (fun u => !(send u)) ∧
    (broadcast_manual_signal recipients send).1
      = (recipients.filter send).length := by
  unfold broadcast_manual_signal
  rw [broadcast_foldl_eq]
  refine ⟨?_, by simp, by simp⟩
  simp [@List.length_eq_length_filter_add _ recipients send]

/-! ## C7 -/

/-- C7: every `_execute_auto_signal` call increments `sent` by exactly 1
(and touches neither `target` nor `date`); when the global toggle is off it
contacts no recipients and returns a no-op result of 0 delivered with an
empty failed list, still incrementing `sent`. -/
theorem execute_auto_signal_increments_sent (toggle : Bool)
    (recipients : List ℤ) (send : ℤ → Bool) (st : AutoSignalState) :
    ((execute_auto_signal toggle recipients send st).2.1.sent = st.sent + 1 ∧
     (execute_auto_signal toggle recipients send st).2.1.target = st.target ∧
     (execute_auto_signal toggle recipients send st).2.1.date = st.date) ∧
    (toggle = false →
      (execute_auto_signal toggle recipients send st).1 = (0, []) ∧
      (execute_auto_signal toggle recipients send st).2.2 = []) := by
  unfold execute_auto_signal
  constructor
  · split <;> simp
  · intro h
    simp [h]

/-- Witness for C7 at a concrete toggle-off state. -/
theorem execute_auto_signal_increments_sent_witness :
    ((execute_auto_signal false [3, 4] (fun _ => true) ⟨0, 5, 2⟩).2.1.sent = 3 ∧
     (execute_auto_signal false [3, 4] (fun _ => true) ⟨0, 5, 2⟩).1 = (0, []) ∧
     (execute_auto_signal false [3, 4] (fun _ => true) ⟨0, 5, 2⟩).2.2 = []) := by
  have h := execute_auto_signal_increments_sent false [3, 4] (fun _ => true) ⟨0, 5, 2⟩
  exact ⟨h.1.1, (h.2 rfl).1, (h.2 rfl).2⟩

/-! ## C5 -/

/-- The right strip never lengthens a string. -/
theorem pyRstrip_length_le (s : List Char) : (pyRstrip s).length ≤ s.length := by
  unfold pyRstrip
  calc ((s.reverse.dropWhile isPySpace).reverse).length
      = (s.reverse.dropWhile isPySpace).length := by rw [List.length_reverse]
    _ ≤ s.reverse.length := (List.dropWhile_sublist _).length_le
    _ = s.length := by rw [List.length_reverse]

set_option maxRecDepth 100000 in
/-- C5 counterexample: a 1025-character text whose 1023rd character is a
space. The truncation strips the trailing space after slicing, so the output
has length 1023, not the 1024-character limit the claim demands (it does end
with the ellipsis and reports truncation). -/
theorem prepare_caption_counterexample :
    (List.replicate 1022 'a' ++ [' ', 'b', 'b']).length = 1025 ∧
    (prepare_caption_text (List.replicate 1022 'a' ++ [' ', 'b', 'b'])).2 = true ∧
    ((prepare_caption_text (List.replicate 1022 'a' ++ [' ', 'b', 'b'])).1).length
      = 1023 ∧
    (1023 : ℕ) ≠ TELEGRAM_CAPTION_LIMIT := by
  refine ⟨?_, by decide, by decide, by decide⟩
  rw [List.length_append, List.length_replicate]
  rfl

/-- C5 (amended): for text at or under the 1024-character limit the pair
`(text, false)` is returned unchanged; for longer text the returned text
ends with the ellipsis marker, reports truncation, and its length is at
most the limit (equal only when no trailing whitespace is stripped at the
cut). -/
theorem prepare_caption_spec (text : List Char) :
    (text.length ≤ TELEGRAM_CAPTION_LIMIT →
      prepare_caption_text text = (text, false)) ∧
    (TELEGRAM_CAPTION_LIMIT < text.length →
      (prepare_caption_text text).1.length ≤ TELEGRAM_CAPTION_LIMIT ∧
      (prepare_caption_text text).1.getLast? = some '…' ∧
      (prepare_caption_text text).2 = true) := by
  constructor
  · intro h
    unfold prepare_caption_text
    rw [if_pos h]
  · intro h
    unfold prepare_caption_text
    rw [if_neg (by omega)]
    dsimp only
    split
    · exact ⟨by decide, rfl, rfl⟩
    · refine ⟨?_, ?_, rfl⟩
      · have h1 : (pyRstrip (text.take (TELEGRAM_CAPTION_LIMIT - ellipsisMarker.length))).length
            ≤ TELEGRAM_CAPTION_LIMIT - ellipsisMarker.length := by
          calc (pyRstrip (text.take (TELEGRAM_CAPTION_LIMIT - ellipsisMarker.length))).length
              ≤ (text.take (TELEGRAM_CAPTION_LIMIT - ellipsisMarker.length)).length :=
                pyRstrip_length_le _
            _ ≤ TELEGRAM_CAPTION_LIMIT - ellipsisMarker.length := by
                rw [List.length_take]; exact min_le_left _ _
        rw [List.length_append]
        have h2 : ellipsisMarker.length = 1 := rfl
        rw [h2] at h1 ⊢
        have h3 : (1 : ℕ) ≤ TELEGRAM_CAPTION_LIMIT := by decide
        omega
      · exact List.getLast?_concat _

set_option maxRecDepth 100000 in
/-- Witness for C5 (amended) at a short and a long text. -/
theorem prepare_caption_spec_witness :
    prepare_caption_text ['a'] = (['a'], false) ∧
    ((prepare_caption_text (List.replicate 1025 'a')).1.length ≤ TELEGRAM_CAPTION_LIMIT ∧
     (prepare_caption_text (List.replicate 1025 'a')).1.getLast? = some '…' ∧
     (prepare_caption_text (List.replicate 1025 'a')).2 = true) := by
  refine ⟨(prepare_caption_spec ['a']).1 (by decide), ?_⟩
  refine (prepare_caption_spec (List.replicate 1025 'a')).2 ?_
  rw [List.length_replicate]
  decide

/-! ## C8 -/

/-- C8: `_cancel_one_scheduled_auto_job` pops the most-recently-registered
still-pending pair: it returns true exactly when a pending pair exists,
cancels exactly that pair's timers, leaves the earlier pending pairs
(one fewer), never touches the day state (`sent`/`target`), and is a no-op
returning false when no pending pair exists. -/
theorem cancel_one_scheduled_auto_job_spec (bd : BotJobData) :
    (cancel_one_scheduled_auto_job bd).1
      = !(bd.jobs.filter entryPending).isEmpty ∧
    (cancel_one_scheduled_auto_job bd).2.1.state = bd.state ∧
    (cancel_one_scheduled_auto_job bd).2.1.jobs.filter entryPending
      = (bd.jobs.filter entryPending).dropLast ∧
    ((cancel_one_scheduled_auto_job bd).2.1.jobs.filter entryPending).length
      = (bd.jobs.filter entryPending).length - 1 ∧
    (cancel_one_scheduled_auto_job bd).2.2
      = ((bd.jobs.filter entryPending).getLast?.map entryHandles).getD [] ∧
    ((∀ e ∈ bd.jobs, entryPending e = true) →
      bd.jobs.filter entryPending = [] →
      cancel_one_scheduled_auto_job bd = (false, bd, [])) := by
  obtain ⟨h1, h2, h3⟩ := cancelOneAux_spec bd.jobs.reverse
  have hfilter : bd.jobs.reverse.filter entryPending
      = (bd.jobs.filter entryPending).reverse := List.filter_reverse _ _
  have hjobs : (cancel_one_scheduled_auto_job bd).2.1.jobs.filter entryPending
      = (bd.jobs.filter entryPending).dropLast := by
    show ((cancelOneAux bd.jobs.reverse).2.1.reverse).filter entryPending
        = (bd.jobs.filter entryPending).dropLast
    rw [List.filter_reverse, h2, hfilter, reverse_tail_reverse]
  refine ⟨?_, rfl, hjobs, ?_, ?_, ?_⟩
  · show (cancelOneAux bd.jobs.reverse).1 = _
    rw [h1, hfilter]
    cases bd.jobs.filter entryPending <;> simp
  · rw [hjobs, List.length_dropLast]
  · show (cancelOneAux bd.jobs.reverse).2.2 = _
    rw [h3, hfilter, List.head?_reverse]
  · intro hall hempty
    have hjobs_nil : bd.jobs = [] := by
      have := List.filter_eq_self.mpr hall
      rw [hempty] at this
      exact this.symm
    cases bd with
    | mk jobs st =>
      simp only at hjobs_nil
      subst hjobs_nil
      rfl

/-- Witness for C8 at an empty job list (the no-op case) together with the
frame facts at a one-pair state. -/
theorem cancel_one_scheduled_auto_job_spec_witness :
    cancel_one_scheduled_auto_job ⟨[], ⟨0, 0, 0⟩⟩ = (false, ⟨[], ⟨0, 0, 0⟩⟩, []) ∧
    (cancel_one_scheduled_auto_job ⟨[⟨some 1, some 2⟩], ⟨0, 3, 1⟩⟩).2.1.state
      = ⟨0, 3, 1⟩ := by
  constructor
  · exact (cancel_one_scheduled_auto_job_spec ⟨[], ⟨0, 0, 0⟩⟩).2.2.2.2.2
      (by intro e he; cases he) rfl
  · exact (cancel_one_scheduled_auto_job_spec ⟨[⟨some 1, some 2⟩], ⟨0, 3, 1⟩⟩).2.1

/-! ## Recipient-resolution helper lemmas -/

/-- Two storage states are observationally equal for the resolver: same
toggle, same tables, same effective preferences. -/
def obsEqStorage (s t : StorageState) : Prop :=
  s.globalSignals = t.globalSignals ∧ s.approved = t.approved ∧
  s.completed = t.completed ∧ ∀ u, prefOrDefault s u = prefOrDefault t u

theorem obsEqStorage_refl (s : StorageState) : obsEqStorage s s :=
  ⟨rfl, rfl, rfl, fun _ => rfl⟩

theorem obsEqStorage_trans {s t r : StorageState} (h1 : obsEqStorage s t)
    (h2 : obsEqStorage t r) : obsEqStorage s r :=
  ⟨h1.1.trans h2.1, h1.2.1.trans h2.2.1, h1.2.2.1.trans h2.2.2.1,
   fun u => (h1.2.2.2 u).trans (h2.2.2.2 u)⟩

/-- The lazy getter returns the effective (defaulted) preference. -/
theorem getPersonal_fst (s : StorageState) (u : ℤ) :
    (get_personal_signals_setting s u).1 = prefOrDefault s u := by
  unfold get_personal_signals_setting prefOrDefault
  cases h : s.personal u <;> simp [h]

/-- The lazy getter's state update (persisting the default for an unset
preference) does not change any observable. -/
theorem getPersonal_obsEq (s : StorageState) (u : ℤ) :
    obsEqStorage (get_personal_signals_setting s u).2 s := by
  unfold get_personal_signals_setting
  cases h : s.personal u with
  | none =>
    refine ⟨rfl, rfl, rfl, fun x => ?_⟩
    unfold prefOrDefault setPersonal
    by_cases hx : x = u
    · subst hx; simp [h]
    · simp [hx]
  | some v => exact obsEqStorage_refl s

/-- Folding the lazy getter over any user list leaves the observables
unchanged. -/
theorem initFold_obsEq (l : List ℤ) (s : StorageState) :
    obsEqStorage
      (l.foldl (fun st u => (get_personal_signals_setting st u).2) s) s := by
  induction l generalizing s with
  | nil => exact obsEqStorage_refl s
  | cons x xs ih =>
    exact obsEqStorage_trans (ih ((get_personal_signals_setting s x).2))
      (getPersonal_obsEq s x)

/-- The admin loop accumulates exactly the admins whose effective
preference is enabled, and leaves the observables unchanged. -/
theorem adminFold_spec (l : List ℤ) (acc : Finset ℤ) (s : StorageState) :
    (∀ y : ℤ, y ∈ (l.foldl adminStep (acc, s)).1 ↔
      y ∈ acc ∨ (y ∈ l ∧ prefOrDefault s y = true)) ∧
    obsEqStorage (l.foldl adminStep (acc, s)).2 s := by
  induction l generalizing acc s with
  | nil => exact ⟨fun y => by simp, obsEqStorage_refl s⟩
  | cons x xs ih =>
    have hval : (get_personal_signals_setting s x).1 = prefOrDefault s x :=
      getPersonal_fst s x
    have hobs := getPersonal_obsEq s x
    have hstep : (x :: xs).foldl adminStep (acc, s)
        = xs.foldl adminStep
            (if (get_personal_signals_setting s x).1 then insert x acc else acc,
             (get_personal_signals_setting s x).2) := rfl
    obtain ⟨ih1, ih2⟩ := ih
      (if (get_personal_signals_setting s x).1 then insert x acc else acc)
      ((get_personal_signals_setting s x).2)
    rw [hstep]
    refine ⟨fun y => ?_, obsEqStorage_trans ih2 hobs⟩
    rw [ih1 y, hval]
    have hpref : prefOrDefault (get_personal_signals_setting s x).2 y
        = prefOrDefault s y := hobs.2.2.2 y
    rw [hpref]
    by_cases hp : prefOrDefault s x = true
    · rw [if_pos hp]
      simp only [Finset.mem_insert, List.mem_cons]
      constructor
      · rintro ((h | h) | h)
        · exact Or.inr ⟨Or.inl h, h ▸ hp⟩
        · exact Or.inl h
        · exact Or.inr ⟨Or.inr h.1, h.2⟩
      · rintro (h | ⟨h1 | h1, h2⟩)
        · exact Or.inl (Or.inr h)
        · exact Or.inl (Or.inl h1)
        · exact Or.inr ⟨h1, h2⟩
    · rw [if_neg hp]
      simp only [List.mem_cons]
      constructor
      · rintro (h | h)
        · exact Or.inl h
        · exact Or.inr ⟨Or.inr h.1, h.2⟩
      · rintro (h | ⟨h1 | h1, h2⟩)
        · exact Or.inl h
        · exact absurd (h1 ▸ h2) hp
        · exact Or.inr ⟨h1, h2⟩

/-- The resolver's output is always sorted ascending and duplicate-free. -/
theorem gather_fst_sorted (adminIds : Finset ℤ) (s : StorageState) :
    List.Sorted (· ≤ ·) (gather_signal_recipients adminIds s).1 ∧
    (gather_signal_recipients adminIds s).1.Nodup := by
  unfold gather_signal_recipients
  by_cases h : s.globalSignals = false
  · rw [if_pos h]
    exact ⟨List.sorted_nil, List.nodup_nil⟩
  · rw [if_neg h]
    exact ⟨Finset.sort_sorted _ _, Finset.sort_nodup _ _⟩

/-- Membership characterization of the resolver's output when the global
toggle is on. -/
theorem gather_fst_mem (adminIds : Finset ℤ) (s : StorageState)
    (h : s.globalSignals = true) (u : ℤ) :
    u ∈ (gather_signal_recipients adminIds s).1 ↔
      (prefOrDefault s u = true ∧
        ((u ∉ adminIds ∧ (u ∈ s.approved ∨ u ∈ s.completed)) ∨ u ∈ adminIds)) := by
  unfold gather_signal_recipients
  rw [if_neg (by rw [h]; exact fun hc => Bool.noConfusion hc)]
  dsimp only
  rw [Finset.mem_sort]
  set recipients := (list_signal_recipient_ids s).filter (fun u => u ∉ adminIds)
    with hrec
  set s1 := (recipients.sort (· ≤ ·)).foldl
    (fun st u => (get_personal_signals_setting st u).2) s with hs1
  have hobs1 : obsEqStorage s1 s := initFold_obsEq _ s
  rw [(adminFold_spec (adminIds.sort (· ≤ ·)) recipients s1).1 u]
  rw [hrec, Finset.mem_filter]
  unfold list_signal_recipient_ids
  rw [Finset.mem_filter, Finset.mem_union, Finset.mem_sort,
    hobs1.2.2.2 u]
  constructor
  · rintro (⟨⟨hmem, hpref⟩, hadm⟩ | ⟨hadm, hpref⟩)
    · exact ⟨hpref, Or.inl ⟨hadm, hmem⟩⟩
    · exact ⟨hpref, Or.inr hadm⟩
  · rintro ⟨hpref, ⟨hadm, hmem⟩ | hadm⟩
    · exact Or.inl ⟨⟨hmem, hpref⟩, hadm⟩
    · exact Or.inr ⟨hadm, hpref⟩

/-- The resolver's state effect (lazily persisting default preferences)
changes no observable. -/
theorem gather_snd_obsEq (adminIds : Finset ℤ) (s : StorageState) :
    obsEqStorage (gather_signal_recipients adminIds s).2 s := by
  unfold gather_signal_recipients
  by_cases h : s.globalSignals = false
  · rw [if_pos h]
    exact obsEqStorage_refl s
  · rw [if_neg h]
    dsimp only
    exact obsEqStorage_trans
      (adminFold_spec _ _ _).2 (initFold_obsEq _ s)

/-- Observationally equal states produce the same recipient list. -/
theorem gather_fst_congr (adminIds : Finset ℤ) {s t : StorageState}
    (h : obsEqStorage s t) :
    (gather_signal_recipients adminIds s).1
      = (gather_signal_recipients adminIds t).1 := by
  by_cases htog : t.globalSignals = true
  · have hstog : s.globalSignals = true := h.1.trans htog
    refine List.eq_of_perm_of_sorted
      ((List.perm_ext_iff_of_nodup (gather_fst_sorted adminIds s).2
        (gather_fst_sorted adminIds t).2).mpr fun u => ?_)
      (gather_fst_sorted adminIds s).1 (gather_fst_sorted adminIds t).1
    rw [gather_fst_mem adminIds s hstog u, gather_fst_mem adminIds t htog u,
      h.2.1, h.2.2.1, h.2.2.2 u]
  · have htog2 : t.globalSignals = false := Bool.eq_false_iff.mpr htog
    have hstog : s.globalSignals = false := h.1.trans htog2
    unfold gather_signal_recipients
    rw [if_pos hstog, if_pos htog2]

/-! ## C4 -/

/-- C4: `_gather_signal_recipients` returns the empty list when the global
broadcast toggle is off; otherwise it returns the sorted, duplicate-free
list of the users that are approved or completed, minus admin IDs, kept
when their personal preference (defaulting to enabled when unset) is true,
plus every admin whose personal preference (same default) is true. -/
theorem gather_signal_recipients_spec (adminIds : Finset ℤ) (s : StorageState) :
    (s.globalSignals = false → (gather_signal_recipients adminIds s).1 = []) ∧
    (s.globalSignals = true →
      List.Sorted (· ≤ ·) (gather_signal_recipients adminIds s).1 ∧
      (gather_signal_recipients adminIds s).1.Nodup ∧
      ∀ u : ℤ, u ∈ (gather_signal_recipients adminIds s).1 ↔
        (prefOrDefault s u = true ∧
          ((u ∉ adminIds ∧ (u ∈ s.approved ∨ u ∈ s.completed)) ∨
            u ∈ adminIds))) := by
  constructor
  · intro h
    unfold gather_signal_recipients
    rw [if_pos h]
  · intro h
    exact ⟨(gather_fst_sorted adminIds s).1, (gather_fst_sorted adminIds s).2,
      fun u => gather_fst_mem adminIds s h u⟩

/-- Witness for C4: one approved non-admin user (unset preference), one
completed user who opted out, one admin with unset preference. -/
theorem gather_signal_recipients_spec_witness :
    (gather_signal_recipients {1}
        ⟨true, {2}, {3}, fun x => if x = 3 then some false else none⟩).1.Nodup ∧
    ((2 : ℤ) ∈ (gather_signal_recipients {1}
        ⟨true, {2}, {3}, fun x => if x = 3 then some false else none⟩).1 ↔
      (prefOrDefault
          ⟨true, {2}, {3}, fun x => if x = 3 then some false else none⟩ 2 = true ∧
        (((2 : ℤ) ∉ ({1} : Finset ℤ) ∧
            ((2 : ℤ) ∈ ({2} : Finset ℤ) ∨ (2 : ℤ) ∈ ({3} : Finset ℤ))) ∨
          (2 : ℤ) ∈ ({1} : Finset ℤ)))) := by
  have h := (gather_signal_recipients_spec {1}
    ⟨true, {2}, {3}, fun x => if x = 3 then some false else none⟩).2 rfl
  exact ⟨h.2.1, h.2.2 2⟩

/-! ## C9 -/

/-- C9: recipient resolution is idempotent: for a fixed storage state,
resolving twice with no intervening change yields the same list both times,
even though the first call may lazily persist default opt-in preferences. -/
theorem gather_signal_recipients_idempotent (adminIds : Finset ℤ)
    (s : StorageState) :
    (gather_signal_recipients adminIds
        ((gather_signal_recipients adminIds s).2)).1
      = (gather_signal_recipients adminIds s).1 :=
  gather_fst_congr adminIds (gather_snd_obsEq adminIds s)

/-! ## Plan-builder helper lemmas -/

/-- `Rat.floor` agrees with the floor of the `FloorRing` instance. -/
theorem ratFloor_eq_floor (q : ℚ) : Rat.floor q = ⌊q⌋ :=
  (Rat.floor_def' q).trans Rat.floor_def.symm

/-- A successful range parse yields non-negative, ordered bounds. -/
theorem parse_signal_range_bounds_ok {s : List Char} {lo hi : ℤ}
    (h : parse_signal_range_bounds s = some (lo, hi)) : 0 ≤ lo ∧ lo ≤ hi := by
  unfold parse_signal_range_bounds at h
  split at h
  · exact absurd h (by simp)
  · split at h
    · split at h
      · exact absurd h (by simp)
      · next hc =>
        rw [Option.some_inj] at h
        obtain ⟨rfl, rfl⟩ := Prod.mk.injEq .. ▸ h
        push_neg at hc
        omega
    · exact absurd h (by simp)

/-- The uniform integer draw lands inside the inclusive range. -/
theorem randint_mem {lo hi : ℤ} (r : ℚ) (hle : lo ≤ hi) (h0 : 0 ≤ r)
    (h1 : r < 1) : lo ≤ randint lo hi r ∧ randint lo hi r ≤ hi := by
  unfold randint
  rw [ratFloor_eq_floor]
  have hn : (0 : ℚ) < ((hi - lo + 1 : ℤ) : ℚ) := by
    push_cast
    have : (lo : ℚ) ≤ (hi : ℚ) := by exact_mod_cast hle
    linarith
  have hprod0 : 0 ≤ r * ((hi - lo + 1 : ℤ) : ℚ) := mul_nonneg h0 (le_of_lt hn)
  have hprodlt : r * ((hi - lo + 1 : ℤ) : ℚ) < ((hi - lo + 1 : ℤ) : ℚ) := by
    calc r * ((hi - lo + 1 : ℤ) : ℚ)
        < 1 * ((hi - lo + 1 : ℤ) : ℚ) := mul_lt_mul_of_pos_right h1 hn
      _ = ((hi - lo + 1 : ℤ) : ℚ) := one_mul _
  have hfl0 : 0 ≤ ⌊r * ((hi - lo + 1 : ℤ) : ℚ)⌋ := Int.floor_nonneg.mpr hprod0
  have hfllt : ⌊r * ((hi - lo + 1 : ℤ) : ℚ)⌋ < hi - lo + 1 :=
    Int.floor_lt.mpr (by exact_mod_cast hprodlt)
  omega

/-- Every drawn delivery instant lies in `[earliest, latest)` when the seeds
are in `[0, 1)` (the `latest - 1` clamp is unreachable in exact
arithmetic). -/
theorem drawTimes_mem_bounds (oseed : ℕ → ℚ) (k : ℕ) (earliest latest : ℚ)
    (hseed : ∀ i, 0 ≤ oseed i ∧ oseed i < 1) (hlt : earliest < latest)
    (t : ℚ) (ht : t ∈ drawTimes oseed k earliest latest (latest - earliest)) :
    earliest ≤ t ∧ t < latest := by
  unfold drawTimes at ht
  simp only [List.mem_map, List.mem_range] at ht
  obtain ⟨i, _, rfl⟩ := ht
  have h0 := (hseed i).1
  have h1 := (hseed i).2
  have hd : (0 : ℚ) < latest - earliest := by linarith
  have hoff0 : 0 ≤ oseed i * (latest - earliest) := mul_nonneg h0 (le_of_lt hd)
  have hofflt : oseed i * (latest - earliest) < latest - earliest := by
    calc oseed i * (latest - earliest)
        < 1 * (latest - earliest) := mul_lt_mul_of_pos_right h1 hd
      _ = latest - earliest := one_mul _
  rw [if_neg (by linarith)]
  constructor <;> linarith

/-- A scheduled pair's delivery instant comes from the instant list. -/
theorem scheduleJobs_deliveryTime_mem (nowAt : ℕ → ℚ) :
    ∀ (i : ℕ) (ts : List ℚ) (p : ScheduledPair),
      p ∈ scheduleJobs nowAt i ts → p.deliveryTime ∈ ts := by
  intro i ts
  induction ts generalizing i with
  | nil => intro p hp; cases hp
  | cons t rest ih =>
    intro p hp
    unfold scheduleJobs at hp
    dsimp only at hp
    split at hp
    · exact List.mem_cons_of_mem t (ih (i + 1) p hp)
    · rcases List.mem_cons.mp hp with h | h
      · rw [h]
        exact List.mem_cons_self t rest
      · exact List.mem_cons_of_mem t (ih (i + 1) p h)

/-- The scheduling loop preserves the ascending order of the instants. -/
theorem scheduleJobs_sorted (nowAt : ℕ → ℚ) :
    ∀ (i : ℕ) (ts : List ℚ), List.Sorted (· ≤ ·) ts →
      List.Sorted (· ≤ ·)
        ((scheduleJobs nowAt i ts).map ScheduledPair.deliveryTime) := by
  intro i ts
  induction ts generalizing i with
  | nil => intro _; simp [scheduleJobs]
  | cons t rest ih =>
    intro hs
    rw [List.sorted_cons] at hs
    unfold scheduleJobs
    dsimp only
    split
    · exact ih (i + 1) hs.2
    · rw [List.map_cons, List.sorted_cons]
      refine ⟨fun b hb => ?_, ih (i + 1) hs.2⟩
      simp only [List.mem_map] at hb
      obtain ⟨p, hp, rfl⟩ := hb
      exact hs.1 _ (scheduleJobs_deliveryTime_mem nowAt (i + 1) rest p hp)

/-- Every registered pair has a strictly positive delivery delay, a
non-negative warning delay, and a warning lead of exactly the configured
10 seconds unless the warning was clamped to the current time (then the
lead is shorter). -/
theorem scheduleJobs_delays (nowAt : ℕ → ℚ) :
    ∀ (i : ℕ) (ts : List ℚ) (p : ScheduledPair), p ∈ scheduleJobs nowAt i ts →
      0 < p.deliveryDelay ∧ 0 ≤ p.warningDelay ∧
      p.deliveryDelay - p.warningDelay ≤ (AUTO_SIGNAL_WARNING_SECONDS : ℚ) ∧
      (p.warningDelay ≠ 0 →
        p.deliveryDelay - p.warningDelay = (AUTO_SIGNAL_WARNING_SECONDS : ℚ)) := by
  intro i ts
  induction ts generalizing i with
  | nil => intro p hp; cases hp
  | cons t rest ih =>
    intro p hp
    unfold scheduleJobs at hp
    dsimp only at hp
    split at hp
    · exact ih (i + 1) p hp
    · next hdd =>
      rcases List.mem_cons.mp hp with h | h
      · rw [not_le] at hdd
        subst h
        dsimp only
        by_cases hw : t - (AUTO_SIGNAL_WARNING_SECONDS : ℚ) - nowAt i < 0
        · rw [if_pos hw]
          refine ⟨hdd, le_refl 0, by linarith, fun hc => absurd rfl hc⟩
        · rw [if_neg hw]
          rw [not_lt] at hw
          refine ⟨hdd, hw, by linarith, fun _ => by ring⟩
      · exact ih (i + 1) p h

/-- When the toggle is off or the range string is unparsable, the builder
records a zero day (today's date, `target = 0`, `sent = 0`) and registers
no timers. -/
theorem setup_disabled (toggle : Bool) (rangeStr hoursStr : List Char)
    (today : ℤ) (now tseed : ℚ) (oseed nowAt : ℕ → ℚ) (jq : Bool)
    (h : toggle = false ∨ parse_signal_range_bounds rangeStr = none) :
    setup_auto_signals_for_today toggle rangeStr hoursStr today now tseed
      oseed nowAt jq = (⟨today, 0, 0⟩, []) := by
  unfold setup_auto_signals_for_today
  rcases h with h | h
  · rw [if_pos h]
  · by_cases htog : toggle = false
    · rw [if_pos htog]
    · rw [if_neg htog, h]

/-- With the toggle on, a parsed range, and a working-hours window whose
end is after its start, the builder records today's date, the drawn target
and `sent = 0`. -/
theorem setup_fst_of_valid (rangeStr hoursStr : List Char)
    (today : ℤ) (now tseed : ℚ) (oseed nowAt : ℕ → ℚ) (jq : Bool)
    {lo hi : ℤ} (hparse : parse_signal_range_bounds rangeStr = some (lo, hi))
    (hwin : timeToSeconds (resolve_auto_signal_window hoursStr).1
      < timeToSeconds (resolve_auto_signal_window hoursStr).2) :
    (setup_auto_signals_for_today true rangeStr hoursStr today now tseed
        oseed nowAt jq).1 = ⟨today, randint lo hi tseed, 0⟩ := by
  unfold setup_auto_signals_for_today
  rw [if_neg (by simp), hparse]
  dsimp only
  rw [if_neg (not_le.mpr hwin)]
  split
  · rfl
  · split
    · rfl
    · split
      · rfl
      · split
        · rfl
        · rfl

/-- Inversion for the registered pairs: either no timer was registered, or
the toggle was on, the range parsed, the drawn target was positive, the
usable span was valid and longer than the warning lead, and the pairs are
the scheduling loop applied to the sorted drawn instants. -/
theorem setup_snd_cases (toggle : Bool) (rangeStr hoursStr : List Char)
    (today : ℤ) (now tseed : ℚ) (oseed nowAt : ℕ → ℚ) (jq : Bool) :
    (setup_auto_signals_for_today toggle rangeStr hoursStr today now tseed
        oseed nowAt jq).2 = [] ∨
    ∃ lo hi : ℤ,
      toggle = true ∧
      parse_signal_range_bounds rangeStr = some (lo, hi) ∧
      0 < randint lo hi tseed ∧
      max (timeToSeconds (resolve_auto_signal_window hoursStr).1)
          (now + ((AUTO_SIGNAL_WARNING_SECONDS : ℚ) + 1))
        < timeToSeconds (resolve_auto_signal_window hoursStr).2 ∧
      (AUTO_SIGNAL_WARNING_SECONDS : ℚ)
        < timeToSeconds (resolve_auto_signal_window hoursStr).2
          - max (timeToSeconds (resolve_auto_signal_window hoursStr).1)
              (now + ((AUTO_SIGNAL_WARNING_SECONDS : ℚ) + 1)) ∧
      (setup_auto_signals_for_today toggle rangeStr hoursStr today now tseed
          oseed nowAt jq).2
        = scheduleJobs nowAt 0
            (List.insertionSort (· ≤ ·)
              (drawTimes oseed (randint lo hi tseed).toNat
                (max (timeToSeconds (resolve_auto_signal_window hoursStr).1)
                  (now + ((AUTO_SIGNAL_WARNING_SECONDS : ℚ) + 1)))
                (timeToSeconds (resolve_auto_signal_window hoursStr).2)
                (timeToSeconds (resolve_auto_signal_window hoursStr).2
                  - max (timeToSeconds (resolve_auto_signal_window hoursStr).1)
                    (now + ((AUTO_SIGNAL_WARNING_SECONDS : ℚ) + 1))))) := by
  conv_lhs => unfold setup_auto_signals_for_today
  split
  · exact Or.inl rfl
  · next htog =>
    split
    · exact Or.inl rfl
    · next lo hi heq =>
      dsimp only
      split
      · exact Or.inl rfl
      · next hends =>
        split
        · exact Or.inl rfl
        · next htpos =>
          split
          · exact Or.inl rfl
          · next hlat =>
            split
            · exact Or.inl rfl
            · next hdur =>
              split
              · exact Or.inl rfl
              · next hjq =>
                refine Or.inr ⟨lo, hi, ?_, heq, by omega, by linarith, by linarith, ?_⟩
                · revert htog
                  cases toggle <;> simp
                · rw [setup_auto_signals_for_today]
                  rw [if_neg htog, heq]
                  dsimp only
                  rw [if_neg hends, if_neg htpos, if_neg hlat, if_neg hdur,
                    if_neg hjq]

/-- With the toggle on and a parsed range but an inverted or empty window
(end at or before start), the builder records a zero day. -/
theorem setup_fst_invalid_window (rangeStr hoursStr : List Char)
    (today : ℤ) (now tseed : ℚ) (oseed nowAt : ℕ → ℚ) (jq : Bool)
    {lo hi : ℤ} (hparse : parse_signal_range_bounds rangeStr = some (lo, hi))
    (hwin : timeToSeconds (resolve_auto_signal_window hoursStr).2
      ≤ timeToSeconds (resolve_auto_signal_window hoursStr).1) :
    setup_auto_signals_for_today true rangeStr hoursStr today now tseed
      oseed nowAt jq = (⟨today, 0, 0⟩, []) := by
  unfold setup_auto_signals_for_today
  rw [if_neg (by simp), hparse]
  dsimp only
  rw [if_pos hwin]

/-- The recorded state is always today's date with `sent = 0`, and the
target is either zero or the integer drawn from the parsed range. -/
theorem setup_fst_cases (toggle : Bool) (rangeStr hoursStr : List Char)
    (today : ℤ) (now tseed : ℚ) (oseed nowAt : ℕ → ℚ) (jq : Bool) :
    (setup_auto_signals_for_today toggle rangeStr hoursStr today now tseed
        oseed nowAt jq).1 = ⟨today, 0, 0⟩ ∨
    ∃ lo hi : ℤ,
      parse_signal_range_bounds rangeStr = some (lo, hi) ∧
      (setup_auto_signals_for_today toggle rangeStr hoursStr today now tseed
          oseed nowAt jq).1 = ⟨today, randint lo hi tseed, 0⟩ := by
  by_cases htog : toggle = false
  · exact Or.inl (by rw [setup_disabled _ _ _ _ _ _ _ _ _ (Or.inl htog)])
  · have htog2 : toggle = true := Bool.not_eq_false _ ▸ htog
    subst htog2
    cases hp : parse_signal_range_bounds rangeStr with
    | none =>
      exact Or.inl (by rw [setup_disabled _ _ _ _ _ _ _ _ _ (Or.inr hp)])
    | some b =>
      obtain ⟨lo, hi⟩ := b
      by_cases hwin : timeToSeconds (resolve_auto_signal_window hoursStr).2
          ≤ timeToSeconds (resolve_auto_signal_window hoursStr).1
      · exact Or.inl (by
          rw [setup_fst_invalid_window _ _ _ _ _ _ _ _ hp hwin])
      · exact Or.inr ⟨lo, hi, rfl,
          setup_fst_of_valid _ _ _ _ _ _ _ _ hp (not_le.mp hwin)⟩

/-- The recorded state does not depend on the wall clock reads of the
scheduling loop: skipping already-elapsed instants never changes the
recorded date, target or sent counters. -/
theorem setup_fst_nowAt_indep (toggle : Bool) (rangeStr hoursStr : List Char)
    (today : ℤ) (now tseed : ℚ) (oseed nowAt nowAt' : ℕ → ℚ) (jq : Bool) :
    (setup_auto_signals_for_today toggle rangeStr hoursStr today now tseed
        oseed nowAt jq).1
      = (setup_auto_signals_for_today toggle rangeStr hoursStr today now tseed
        oseed nowAt' jq).1 := by
  unfold setup_auto_signals_for_today
  split
  · rfl
  · split
    · rfl
    · dsimp only
      split
      · rfl
      · split
        · rfl
        · split
          · rfl
          · split
            · rfl
            · split <;> rfl

/-! ## C1 -/

/-- C1 counterexample: global toggle on, count range `"5-10"` parsing to
`(5, 10)`, stored working hours `"12:00-09:00"` (end before start). The
builder records `target = 0`, violating `lower ≤ target`. -/
theorem setup_auto_signals_plan_counterexample :
    parse_signal_range_bounds ("5-10".data) = some (5, 10) ∧
    (setup_auto_signals_for_today true ("5-10".data) ("12:00-09:00".data)
        0 0 0 (fun _ => 0) (fun _ => 0) true).1.target = 0 ∧
    ¬(5 ≤ (setup_auto_signals_for_today true ("5-10".data) ("12:00-09:00".data)
        0 0 0 (fun _ => 0) (fun _ => 0) true).1.target) := by
  refine ⟨by decide, ?_, ?_⟩
  · with_unfolding_all decide
  · with_unfolding_all decide

/-- C1 (amended): with the toggle on, a range string parsing to
`(lower, upper)` and a resolved working-hours window whose end is after its
start, the recorded target satisfies `lower ≤ target ≤ upper` with
`sent = 0` and today's date; when the toggle is off or the range is
unparsable the recorded day is `target = 0, sent = 0` with today's date and
no timers; and when `lower = upper = 0` the target is 0 with no timers. -/
theorem setup_auto_signals_plan_spec (toggle : Bool)
    (rangeStr hoursStr : List Char) (today : ℤ) (now tseed : ℚ)
    (oseed nowAt : ℕ → ℚ) (jq : Bool) (h0 : 0 ≤ tseed) (h1 : tseed < 1) :
    (∀ lo hi : ℤ, toggle = true →
      parse_signal_range_bounds rangeStr = some (lo, hi) →
      timeToSeconds (resolve_auto_signal_window hoursStr).1
        < timeToSeconds (resolve_auto_signal_window hoursStr).2 →
      lo ≤ (setup_auto_signals_for_today toggle rangeStr hoursStr today now
          tseed oseed nowAt jq).1.target ∧
      (setup_auto_signals_for_today toggle rangeStr hoursStr today now
          tseed oseed nowAt jq).1.target ≤ hi ∧
      (setup_auto_signals_for_today toggle rangeStr hoursStr today now
          tseed oseed nowAt jq).1.sent = 0 ∧
      (setup_auto_signals_for_today toggle rangeStr hoursStr today now
          tseed oseed nowAt jq).1.date = today) ∧
    (toggle = false ∨ parse_signal_range_bounds rangeStr = none →
      setup_auto_signals_for_today toggle rangeStr hoursStr today now tseed
        oseed nowAt jq = (⟨today, 0, 0⟩, [])) ∧
    (∀ lo hi : ℤ, parse_signal_range_bounds rangeStr = some (lo, hi) →
      lo = 0 → hi = 0 →
      (setup_auto_signals_for_today toggle rangeStr hoursStr today now tseed
          oseed nowAt jq).1.target = 0 ∧
      (setup_auto_signals_for_today toggle rangeStr hoursStr today now tseed
          oseed nowAt jq).1.sent = 0 ∧
      (setup_auto_signals_for_today toggle rangeStr hoursStr today now tseed
          oseed nowAt jq).2 = []) := by
  refine ⟨?_, setup_disabled toggle rangeStr hoursStr today now tseed
    oseed nowAt jq, ?_⟩
  · intro lo hi htog hparse hwin
    subst htog
    rw [setup_fst_of_valid rangeStr hoursStr today now tseed oseed nowAt jq
      hparse hwin]
    have hb := parse_signal_range_bounds_ok hparse
    have hr := randint_mem tseed hb.2 h0 h1
    exact ⟨hr.1, hr.2, rfl, rfl⟩
  · intro lo hi hparse hlo hhi
    subst hlo
    subst hhi
    have hz : randint 0 0 tseed = 0 := by
      have hr := @randint_mem 0 0 tseed (le_refl 0) h0 h1
      omega
    refine ⟨?_, ?_, ?_⟩
    · rcases setup_fst_cases toggle rangeStr hoursStr today now tseed
        oseed nowAt jq with hc | ⟨lo', hi', hp', hc⟩
      · rw [hc]
      · rw [hparse] at hp'
        obtain ⟨rfl, rfl⟩ : lo' = 0 ∧ hi' = 0 := by
          have := Option.some_inj.mp hp'
          exact ⟨(Prod.mk.injEq .. ▸ this).1.symm, (Prod.mk.injEq .. ▸ this).2.symm⟩
        rw [hc, hz]
    · rcases setup_fst_cases toggle rangeStr hoursStr today now tseed
        oseed nowAt jq with hc | ⟨lo', hi', hp', hc⟩ <;> rw [hc]
    · rcases setup_snd_cases toggle rangeStr hoursStr today now tseed
        oseed nowAt jq with hj | ⟨lo', hi', _, hp', hpos, _⟩
      · exact hj
      · rw [hparse] at hp'
        obtain ⟨rfl, rfl⟩ : lo' = 0 ∧ hi' = 0 := by
          have := Option.some_inj.mp hp'
          exact ⟨(Prod.mk.injEq .. ▸ this).1.symm, (Prod.mk.injEq .. ▸ this).2.symm⟩
        rw [hz] at hpos
        exact absurd hpos (lt_irrefl 0)

/-- Witness for C1 (amended): toggle on, range `"6-10"`, hours
`"09:00-12:00"`, seed 0. -/
theorem setup_auto_signals_plan_spec_witness :
    6 ≤ (setup_auto_signals_for_today true ("6-10".data) ("09:00-12:00".data)
        0 0 0 (fun _ => 0) (fun _ => 0) true).1.target ∧
    (setup_auto_signals_for_today true ("6-10".data) ("09:00-12:00".data)
        0 0 0 (fun _ => 0) (fun _ => 0) true).1.target ≤ 10 ∧
    (setup_auto_signals_for_today true ("6-10".data) ("09:00-12:00".data)
        0 0 0 (fun _ => 0) (fun _ => 0) true).1.sent = 0 := by
  have h := (setup_auto_signals_plan_spec true ("6-10".data)
    ("09:00-12:00".data) 0 0 0 (fun _ => 0) (fun _ => 0) true
    (by decide) (by decide)).1 6 10 rfl (by decide) (by decide)
  exact ⟨h.1, h.2.1, h.2.2.1⟩

/-! ## C2 -/

/-- C2 counterexample: window `"09:00-09:01"` (span 60 s), one signal, seed
119/120. The drawn instant 32459.5 s lands half a second before `latest`
(32460 s) — within 1 second of `latest` — yet is handed off unmoved: it is
neither set to `latest - 1` nor moved back by one second, because the code
clamps only instants at or beyond `latest`. -/
theorem setup_delivery_instants_counterexample :
    ((setup_auto_signals_for_today true ("1-1".data) ("09:00-09:01".data)
        0 0 0 (fun _ => 119 / 120) (fun _ => 0) true).2.map
          ScheduledPair.deliveryTime = [64919 / 2]) ∧
    (0 : ℚ) < timeToSeconds
        (resolve_auto_signal_window ("09:00-09:01".data)).2 - 64919 / 2 ∧
    timeToSeconds
        (resolve_auto_signal_window ("09:00-09:01".data)).2 - 64919 / 2 < 1 ∧
    (64919 / 2 : ℚ)
      ≠ timeToSeconds (resolve_auto_signal_window ("09:00-09:01".data)).2 - 1 ∧
    (64919 / 2 : ℚ) ≠ 64919 / 2 - 1 := by
  have hwin : resolve_auto_signal_window ("09:00-09:01".data)
      = ((9, 0), (9, 1)) := by decide
  refine ⟨?_, ?_, ?_, ?_, ?_⟩
  · have hparse : parse_signal_range_bounds ("1-1".data) = some (1, 1) := by
      decide
    have hrand : randint 1 1 0 = 1 := by with_unfolding_all decide
    simp only [setup_auto_signals_for_today, hparse, hwin, hrand,
      timeToSeconds, AUTO_SIGNAL_WARNING_SECONDS, drawTimes, scheduleJobs,
      List.range_succ, List.range_zero, List.map_cons, List.map_nil,
      List.insertionSort, List.orderedInsert]
    norm_num
  · rw [hwin]
    norm_num [timeToSeconds]
  · rw [hwin]
    norm_num [timeToSeconds]
  · rw [hwin]
    norm_num [timeToSeconds]
  · norm_num

/-- C2 (amended): when every draw seed lies in `[0, 1)`, every registered
delivery instant lies in `[windowStart, windowEnd)` — indeed in
`[earliest, latest)`, the `latest - 1` clamp firing only for instants at or
beyond `latest`, which exact arithmetic rules out — and the instants are
handed to the scheduling loop sorted ascending. -/
theorem setup_delivery_instants_spec (toggle : Bool)
    (rangeStr hoursStr : List Char) (today : ℤ) (now tseed : ℚ)
    (oseed nowAt : ℕ → ℚ) (jq : Bool)
    (hseed : ∀ i, 0 ≤ oseed i ∧ oseed i < 1) :
    (∀ p ∈ (setup_auto_signals_for_today toggle rangeStr hoursStr today now
        tseed oseed nowAt jq).2,
      timeToSeconds (resolve_auto_signal_window hoursStr).1 ≤ p.deliveryTime ∧
      p.deliveryTime < timeToSeconds (resolve_auto_signal_window hoursStr).2) ∧
    List.Sorted (· ≤ ·)
      ((setup_auto_signals_for_today toggle rangeStr hoursStr today now tseed
          oseed nowAt jq).2.map ScheduledPair.deliveryTime) := by
  rcases setup_snd_cases toggle rangeStr hoursStr today now tseed oseed nowAt
    jq with hj | ⟨lo, hi, _, _, _, hlat, _, hj⟩
  · rw [hj]
    exact ⟨fun p hp => absurd hp (List.not_mem_nil p), by simp⟩
  · rw [hj]
    constructor
    · intro p hp
      have hmem := scheduleJobs_deliveryTime_mem nowAt 0 _ p hp
      rw [List.mem_insertionSort] at hmem
      have hb := drawTimes_mem_bounds oseed _ _ _ hseed hlat _ hmem
      exact ⟨le_trans (le_max_left _ _) hb.1, hb.2⟩
    · exact scheduleJobs_sorted nowAt 0 _ (List.sorted_insertionSort _ _)

/-- Witness for C2 (amended): range `"2-3"`, hours `"09:00-12:00"`, all
seeds 0. -/
theorem setup_delivery_instants_spec_witness :
    (∀ p ∈ (setup_auto_signals_for_today true ("2-3".data)
        ("09:00-12:00".data) 0 0 0 (fun _ => 0) (fun _ => 0) true).2,
      timeToSeconds (resolve_auto_signal_window ("09:00-12:00".data)).1
        ≤ p.deliveryTime ∧
      p.deliveryTime
        < timeToSeconds (resolve_auto_signal_window ("09:00-12:00".data)).2) ∧
    List.Sorted (· ≤ ·)
      ((setup_auto_signals_for_today true ("2-3".data) ("09:00-12:00".data)
          0 0 0 (fun _ => 0) (fun _ => 0) true).2.map
        ScheduledPair.deliveryTime) :=
  setup_delivery_instants_spec true ("2-3".data) ("09:00-12:00".data)
    0 0 0 (fun _ => 0) (fun _ => 0) true
    (fun _ => ⟨show (0 : ℚ) ≤ 0 by decide, show (0 : ℚ) < 1 by decide⟩)

/-! ## C3 -/

/-- The registered warning delay equals the delivery delay minus the
10-second lead, floored at zero (the clamp to "now"). -/
theorem scheduleJobs_warning_eq (nowAt : ℕ → ℚ) :
    ∀ (i : ℕ) (ts : List ℚ) (p : ScheduledPair), p ∈ scheduleJobs nowAt i ts →
      p.warningDelay
        = max 0 (p.deliveryDelay - (AUTO_SIGNAL_WARNING_SECONDS : ℚ)) := by
  intro i ts
  induction ts generalizing i with
  | nil => intro p hp; cases hp
  | cons t rest ih =>
    intro p hp
    unfold scheduleJobs at hp
    dsimp only at hp
    split at hp
    · exact ih (i + 1) p hp
    · rcases List.mem_cons.mp hp with h | h
      · subst h
        dsimp only
        have harith : t - nowAt i - (AUTO_SIGNAL_WARNING_SECONDS : ℚ)
            = t - (AUTO_SIGNAL_WARNING_SECONDS : ℚ) - nowAt i := by ring
        rw [harith]
        rcases lt_or_le (t - (AUTO_SIGNAL_WARNING_SECONDS : ℚ) - nowAt i) 0
          with hc | hc
        · rw [if_pos hc, max_eq_left (le_of_lt hc)]
        · rw [if_neg (not_lt.mpr hc), max_eq_right hc]
      · exact ih (i + 1) p h

/-- C3: every registered pair's warning delay is the delivery delay minus
the 10-second lead, clamped at the current time (`max 0`), so the warning
precedes its delivery by exactly 10 seconds or less, never more; every
registered delivery delay is strictly positive (an instant that has already
elapsed at its scheduling step produces no pair at all); and the recorded
day state — in particular the target — does not depend on the scheduling
wall clock, so skipped instants are still counted in the target. -/
theorem setup_warning_lead_spec (toggle : Bool) (rangeStr hoursStr : List Char)
    (today : ℤ) (now tseed : ℚ) (oseed nowAt nowAt' : ℕ → ℚ) (jq : Bool) :
    (setup_auto_signals_for_today toggle rangeStr hoursStr today now tseed
        oseed nowAt jq).2.Forall (fun p =>
      0 < p.deliveryDelay ∧
      p.warningDelay
        = max 0 (p.deliveryDelay - (AUTO_SIGNAL_WARNING_SECONDS : ℚ)) ∧
      p.deliveryDelay - p.warningDelay ≤ (AUTO_SIGNAL_WARNING_SECONDS : ℚ)) ∧
    (setup_auto_signals_for_today toggle rangeStr hoursStr today now tseed
        oseed nowAt jq).1
      = (setup_auto_signals_for_today toggle rangeStr hoursStr today now tseed
        oseed nowAt' jq).1 := by
  refine ⟨?_, setup_fst_nowAt_indep toggle rangeStr hoursStr today now tseed
    oseed nowAt nowAt' jq⟩
  rw [List.forall_iff_forall_mem]
  rcases setup_snd_cases toggle rangeStr hoursStr today now tseed oseed nowAt
    jq with hj | ⟨lo, hi, _, _, _, _, _, hj⟩
  · rw [hj]
    exact fun p hp => absurd hp (List.not_mem_nil p)
  · rw [hj]
    intro p hp
    obtain ⟨h1, _, h3, _⟩ := scheduleJobs_delays nowAt 0 _ p hp
    exact ⟨h1, scheduleJobs_warning_eq nowAt 0 _ p hp, h3⟩
